import Mathlib

/-!
# Verification of the `tester` control plane

Shallow embedding of the `tester` repository's core: the persistence layer
(`db` package, PostgreSQL implementation), the worker-facing HTTP dispatcher
(`http` package), the scheduler loop (`scheduler` package), and the summary
data model (`tester` package).

Modelling conventions:
* Timestamps and durations are `Nat` nanoseconds.  Go's zero `time.Time`
  (`IsZero`) and the SQL `NULL` timestamp are both represented by `0`, which
  matches the repository's own mapping (`pgRun.Values` stores a timestamp as
  SQL `NULL` exactly when `IsZero` holds).
* UUIDs are represented by `Nat`.
* The `runs` and `tests` SQL tables are lists of rows; `id` is a PRIMARY KEY
  in the schema (`pg_migrations.go`), which is modelled where an operation's
  behaviour depends on it (duplicate-key failure of `INSERT`).
* Fallible store operations return `Except DBErr`; an error leaves the state
  unchanged (the corresponding SQL statement affected no rows or aborted).
-/

/-- Errors surfaced by the store layer.  `notFound` is `db.ErrNotFound`
(`pgTest.Scan`/`pgRun.Scan` translate `pgx.ErrNoRows` into it);
`uniqueViolation` is the backend's duplicate-key error for an `INSERT`
hitting a PRIMARY KEY; `indexOutOfRange` models a Go slice-bounds panic. -/
inductive DBErr where
  | notFound
  | uniqueViolation
  | indexOutOfRange
  deriving DecidableEq, Repr

/-- `tester.TBState` is a string type in Go (`type TBState string`). -/
abbrev TBState := String

def TBStatePassed : TBState := "passed"
def TBStateFailed : TBState := "failed"
def TBStateSkipped : TBState := "skipped"

/-- `tester.TB`: common fields of a `testing.TB` result. -/
structure TB where
  name : String
  startedAt : Nat
  finishedAt : Nat
  state : TBState
  deriving DecidableEq, Repr

/-- `tester.T`: a single-rooted tree of sub-test results. -/
inductive T where
  | mk (tb : TB) (subTs : List T)

/-- The `TB` component of a `T` (Go embeds `TB` in `T`). -/
def T.tb : T → TB
  | .mk tb _ => tb

/-- `tester.TBLog` entry. -/
structure TBLog where
  time : Nat
  name : String
  output : List Nat
  deriving DecidableEq, Repr

/-- `tester.RunMeta`; the revision used by `PG.StartRun` carries the claiming
worker's identity in `Runner`. -/
structure RunMeta where
  runner : String := ""
  deriving DecidableEq, Repr

/-- A row of the `runs` table (`pgRun` columns: id, package, args,
enqueued_at, started_at, finished_at, error, meta).  `error` is the nullable
`text` column (`sql.NullString`). -/
structure RunRow where
  id : Nat
  pkg : String
  args : List String
  enqueuedAt : Nat
  startedAt : Nat := 0
  finishedAt : Nat := 0
  error : Option String := none
  meta : RunMeta := {}
  deriving DecidableEq, Repr

/-- A row of the `tests` table (`pgTest` columns: id, package, run_id,
result, logs). -/
structure TestRow where
  id : Nat
  pkg : String
  runId : Nat
  result : T
  logs : List TBLog := []

/-- The backing store: the two tables of the schema. -/
structure PGState where
  runs : List RunRow
  tests : List TestRow

/-- Stable insertion of `x` into a list sorted by `key` (models an SQL
`ORDER BY key ASC`). -/
def insertSorted (key : α → Nat) (x : α) : List α → List α
  | [] => [x]
  | y :: ys => if key x < key y then x :: y :: ys else y :: insertSorted key x ys

/-- Stable sort by a `Nat` key (models an SQL `ORDER BY key ASC`). -/
def sortByKey (key : α → Nat) : List α → List α
  | [] => []
  | x :: xs => insertSorted key x (sortByKey key xs)

/-- `PG.EnqueueRun`: `INSERT INTO runs ...`.  Fails on a duplicate primary
key, succeeds otherwise. -/
def enqueueRun (s : PGState) (r : RunRow) : Except DBErr PGState :=
  if s.runs.any (fun r' => r'.id = r.id) then
    .error .uniqueViolation
  else
    .ok { s with runs := s.runs ++ [r] }

/-- `PG.AddTest`: `INSERT INTO tests ...`.  Fails on a duplicate primary key
(`tests.id` is a PRIMARY KEY in the schema), succeeds otherwise. -/
def addTest (s : PGState) (t : TestRow) : Except DBErr PGState :=
  if s.tests.any (fun t' => t'.id = t.id) then
    .error .uniqueViolation
  else
    .ok { s with tests := s.tests ++ [t] }

/-- The first `runs` row with the given id (`QueryRow` of a
`SELECT ... WHERE id = ?`). -/
def findRun (s : PGState) (id : Nat) : Option RunRow :=
  s.runs.find? (fun r => r.id = id)

/-- `PG.listTests` restricted to one run: `SELECT ... FROM tests WHERE
run_id = ? ORDER BY result->'started_at' ASC`. -/
def listTestsForRun (s : PGState) (id : Nat) : List TestRow :=
  sortByKey (fun t => t.result.tb.startedAt) (s.tests.filter (fun t => t.runId = id))

/-- `PG.GetRun`: select the run row by id (ErrNotFound when no row) and
attach its owned tests. -/
def getRun (s : PGState) (id : Nat) : Except DBErr (RunRow × List TestRow) :=
  match findRun s id with
  | none => .error .notFound
  | some r => .ok (r, listTestsForRun s id)

/-- `PG.StartRun(id, runner)` (the revision exercised by `pg_test.go`):
`SELECT` the run row by id (`ErrNotFound` when absent), set
`Meta.Runner = runner` on the scanned value, then `UPDATE runs SET
started_at = now, meta = ... WHERE id = ?`.  No check of the run's state is
made: the update applies to a started or finished run as well. -/
def startRun (s : PGState) (now : Nat) (id : Nat) (runner : String) :
    Except DBErr PGState :=
  match findRun s id with
  | none => .error .notFound
  | some r =>
    let m := { r.meta with runner := runner }
    .ok { s with
          runs := s.runs.map (fun r' =>
            if r'.id = id then { r' with startedAt := now, meta := m } else r') }

/-- `PG.ResetRun(id)` (the revision exercised by `pg_test.go`): `UPDATE runs
SET started_at = NULL, finished_at = NULL, error = NULL, meta = '{}' WHERE
id = ? AND finished_at IS NULL`; `ErrNotFound` when zero rows were
affected. -/
def resetRun (s : PGState) (id : Nat) : Except DBErr PGState :=
  let affected := s.runs.countP (fun r => r.id = id ∧ r.finishedAt = 0)
  if affected = 0 then
    .error .notFound
  else
    .ok { s with
          runs := s.runs.map (fun r =>
            if r.id = id ∧ r.finishedAt = 0 then
              { r with startedAt := 0, finishedAt := 0, error := none, meta := {} }
            else r) }

/-- `PG.CompleteRun(id)`: `UPDATE runs SET finished_at = now WHERE id = ?`
(no state check, affected count ignored). -/
def completeRun (s : PGState) (now : Nat) (id : Nat) : PGState :=
  { s with
    runs := s.runs.map (fun r =>
      if r.id = id then { r with finishedAt := now } else r) }

/-- `PG.FailRun(id, error)`: `UPDATE runs SET finished_at = now,
error = ? WHERE id = ?`. -/
def failRun (s : PGState) (now : Nat) (id : Nat) (msg : String) : PGState :=
  { s with
    runs := s.runs.map (fun r =>
      if r.id = id then { r with finishedAt := now, error := some msg } else r) }

/-- `PG.DeleteRun(id)`: `DELETE FROM runs WHERE id = ?` (affected count
ignored). -/
def deleteRun (s : PGState) (id : Nat) : PGState :=
  { s with runs := s.runs.filter (fun r => ¬ r.id = id) }

/-- `PG.ListPendingRuns`: `SELECT ... FROM runs WHERE finished_at IS NULL
ORDER BY enqueued_at ASC` (row fields only; the attached tests play no role
in any property below). -/
def listPendingRuns (s : PGState) : List RunRow :=
  sortByKey (fun r => r.enqueuedAt) (s.runs.filter (fun r => r.finishedAt = 0))

/-!
## Summary engine (`PG.ListRunSummariesInRange` and the `tester` summary types)
-/

/-- `tester.PackageSummary`.  The Go `map[string][]uuid.UUID` fields are
modelled as association lists (insertion-ordered); only their key/value
contents matter to any property below. -/
structure PackageSummary where
  pkg : String
  runIDs : List Nat := []
  errorRunIDs : List Nat := []
  passedTests : List (String × List Nat) := []
  failedTests : List (String × List Nat) := []
  skippedTests : List (String × List Nat) := []
  deriving DecidableEq, Repr

/-- `tester.RunSummary`.  `packageSummary` models the
`map[string]*PackageSummary` as an insertion-ordered association list. -/
structure RunSummary where
  time : Nat
  duration : Nat
  packageSummary : List (String × PackageSummary) := []
  deriving DecidableEq, Repr

/-- Update the binding of `k` (inserting `f d` at the end when absent):
models fetching a map entry, creating it when missing, and storing the
mutated value back. -/
def updateAssoc (k : String) (f : β → β) (d : β) : List (String × β) → List (String × β)
  | [] => [(k, f d)]
  | (k', v) :: rest =>
    if k' = k then (k', f v) :: rest else (k', v) :: updateAssoc k f d rest

/-- `m[name] = append(m[name], id)` on a `map[string][]uuid.UUID`. -/
def appendToNameMap (name : String) (id : Nat) (m : List (String × List Nat)) :
    List (String × List Nat) :=
  updateAssoc name (fun ids => ids ++ [id]) [] m

/-- One row of the summary query, which joins `tests` to their parent
`runs`. -/
structure JoinRow where
  pkg : String
  runId : Nat
  startedAt : Nat
  error : Option String
  testId : Nat
  result : T

/-- The summary query: `SELECT runs.package, runs.id, runs.started_at,
runs.error, tests.id, tests.result FROM tests JOIN runs ON tests.run_id =
runs.id WHERE runs.started_at IS NOT NULL AND runs.started_at >= b AND
runs.started_at <= e AND runs.finished_at IS NOT NULL ORDER BY
runs.started_at ASC`. -/
def joinedRows (s : PGState) (b e : Nat) : List JoinRow :=
  sortByKey (fun row => row.startedAt)
    (s.tests.flatMap (fun t =>
      s.runs.filterMap (fun r =>
        if r.id = t.runId ∧ r.startedAt ≠ 0 ∧ b ≤ r.startedAt ∧ r.startedAt ≤ e
            ∧ r.finishedAt ≠ 0 then
          some ⟨r.pkg, r.id, r.startedAt, r.error, t.id, t.result⟩
        else none)))

/-- The per-row body of the scan loop: fetch or create the bucket's
`PackageSummary[row.pkg]`; an errored run contributes its id to
`errorRunIDs` and skips test classification (`continue`); otherwise the id
goes to `runIDs` and the test id is partitioned by `result.State`. -/
def addRowToPkg (row : JoinRow) (ps : PackageSummary) : PackageSummary :=
  match row.error with
  | some _ => { ps with errorRunIDs := ps.errorRunIDs ++ [row.runId] }
  | none =>
    let ps := { ps with runIDs := ps.runIDs ++ [row.runId] }
    if row.result.tb.state = TBStatePassed then
      { ps with passedTests := appendToNameMap row.result.tb.name row.testId ps.passedTests }
    else if row.result.tb.state = TBStateFailed then
      { ps with failedTests := appendToNameMap row.result.tb.name row.testId ps.failedTests }
    else if row.result.tb.state = TBStateSkipped then
      { ps with skippedTests := appendToNameMap row.result.tb.name row.testId ps.skippedTests }
    else ps

/-- Apply a row to its bucket. -/
def addRowToBucket (row : JoinRow) (sum : RunSummary) : RunSummary :=
  { sum with
    packageSummary :=
      updateAssoc row.pkg (addRowToPkg row) { pkg := row.pkg } sum.packageSummary }

/-- The scan loop.  `bucketIndex := (row.started_at − b) / w`, then
`summaries[bucketIndex]` is updated; an out-of-bounds index is the Go
runtime's slice-bounds panic, modelled as `indexOutOfRange`. -/
def scanRows (b w : Nat) (sums : List RunSummary) :
    List JoinRow → Except DBErr (List RunSummary)
  | [] => .ok sums
  | row :: rest =>
    let idx := (row.startedAt - b) / w
    if h : idx < sums.length then
      scanRows b w (sums.set idx (addRowToBucket row (sums.get ⟨idx, h⟩))) rest
    else
      .error .indexOutOfRange

/-- First-occurrence-preserving deduplication (the `uniqueRunIDs` map plus
ordered append of the Go code). -/
def dedupIDs (seen : List Nat) : List Nat → List Nat
  | [] => []
  | x :: xs => if x ∈ seen then dedupIDs seen xs else x :: dedupIDs (x :: seen) xs

/-- The post-scan uniquify pass for one package summary.  Faithful to the
source: when `RunIDs` is empty the whole body is skipped (`continue`), so
`ErrorRunIDs` is left as appended. -/
def uniquifyPkg (ps : PackageSummary) : PackageSummary :=
  if ps.runIDs = [] then ps
  else { ps with runIDs := dedupIDs [] ps.runIDs, errorRunIDs := dedupIDs [] ps.errorRunIDs }

/-- The post-scan uniquify pass over one bucket. -/
def uniquifySummary (sum : RunSummary) : RunSummary :=
  { sum with packageSummary := sum.packageSummary.map (fun kv => (kv.1, uniquifyPkg kv.2)) }

/-- `⌈a / b⌉` on `Nat`.  The Go code computes the bucket count as
`int(math.Ceil(float64(e.Sub(b)) / float64(w)))`, which agrees with this
exact ceiling for all durations below 2^53 ns. -/
def natCeilDiv (a b : Nat) : Nat := (a + b - 1) / b

/-- The dense initial bucket list: bucket `i` starts at `b + i*w` with
width `w` and an empty package-summary map. -/
def initSummaries (b w n : Nat) : List RunSummary :=
  (List.range n).map (fun i => { time := b + i * w, duration := w })

/-- `PG.ListRunSummariesInRange(b, e, w)`: allocate
`⌈(e − b) / w⌉` empty buckets, scan the joined query rows into them, then
run the uniquify pass on every bucket. -/
def listRunSummariesInRange (s : PGState) (b e w : Nat) :
    Except DBErr (List RunSummary) :=
  match scanRows b w (initSummaries b w (natCeilDiv (e - b) w)) (joinedRows s b e) with
  | .error err => .error err
  | .ok out => .ok (out.map uniquifySummary)

/-!
## Percentage accessors (`tester` package, run summary statistics)

The accessors compute `float64(num) / float64(total)` with no zero-divisor
guard.  `GoFloat` models the IEEE-754 `float64` result exactly on this
domain of non-negative integer operands: a zero divisor yields NaN when the
numerator is zero and +Inf otherwise; a positive divisor yields the finite
quotient (represented as the exact rational; rounding of finite quotients is
irrelevant to every property below, which only concern the zero-divisor
classification).
-/

/-- Classification of the `float64` value produced by the accessors. -/
inductive GoFloat where
  | nan
  | inf
  | val (q : ℚ)
  deriving DecidableEq, Repr

/-- Go `float64(a) / float64(b)` for natural `a`, `b`. -/
def goDiv (a b : Nat) : GoFloat :=
  if b = 0 then (if a = 0 then .nan else .inf) else .val ((a : ℚ) / (b : ℚ))

/-- `PackageSummary.NumPassedTests`. -/
def PackageSummary.numPassedTests (s : PackageSummary) : Nat :=
  (s.passedTests.map (fun kv => kv.2.length)).sum

/-- `PackageSummary.NumFailedTests`. -/
def PackageSummary.numFailedTests (s : PackageSummary) : Nat :=
  (s.failedTests.map (fun kv => kv.2.length)).sum

/-- `PackageSummary.NumSkippedTests`. -/
def PackageSummary.numSkippedTests (s : PackageSummary) : Nat :=
  (s.skippedTests.map (fun kv => kv.2.length)).sum

/-- `PackageSummary.NumTotalTests`. -/
def PackageSummary.numTotalTests (s : PackageSummary) : Nat :=
  s.numPassedTests + s.numFailedTests + s.numSkippedTests

/-- `PackageSummary.PercentPassedTests`. -/
def PackageSummary.percentPassedTests (s : PackageSummary) : GoFloat :=
  goDiv s.numPassedTests s.numTotalTests

/-- `PackageSummary.PercentFailedTests`. -/
def PackageSummary.percentFailedTests (s : PackageSummary) : GoFloat :=
  goDiv s.numFailedTests s.numTotalTests

/-- `PackageSummary.PercentSkippedTests`. -/
def PackageSummary.percentSkippedTests (s : PackageSummary) : GoFloat :=
  goDiv s.numSkippedTests s.numTotalTests

/-- `RunSummary.NumPassedTests`. -/
def RunSummary.numPassedTests (s : RunSummary) : Nat :=
  (s.packageSummary.map (fun kv => kv.2.numPassedTests)).sum

/-- `RunSummary.NumFailedTests`. -/
def RunSummary.numFailedTests (s : RunSummary) : Nat :=
  (s.packageSummary.map (fun kv => kv.2.numFailedTests)).sum

/-- `RunSummary.NumSkippedTests`. -/
def RunSummary.numSkippedTests (s : RunSummary) : Nat :=
  (s.packageSummary.map (fun kv => kv.2.numSkippedTests)).sum

/-- `RunSummary.NumTotalTests` (sums the per-package passed/failed/skipped
counts and adds the three totals). -/
def RunSummary.numTotalTests (s : RunSummary) : Nat :=
  s.numPassedTests + s.numFailedTests + s.numSkippedTests

/-- `RunSummary.PercentPassedTests`. -/
def RunSummary.percentPassedTests (s : RunSummary) : GoFloat :=
  goDiv s.numPassedTests s.numTotalTests

/-- `RunSummary.PercentFailedTests`. -/
def RunSummary.percentFailedTests (s : RunSummary) : GoFloat :=
  goDiv s.numFailedTests s.numTotalTests

/-- `RunSummary.PercentSkippedTests`. -/
def RunSummary.percentSkippedTests (s : RunSummary) : GoFloat :=
  goDiv s.numSkippedTests s.numTotalTests

/-!
## Dispatcher (`http.APIHandler`)
-/

/-- Outcome of the `submitTest` handler: HTTP 202 / 400 / 500. -/
inductive SubmitResp where
  | accepted
  | badRequest
  | internalError
  deriving DecidableEq, Repr

/-- `APIHandler.submitTest`: read the referenced run (`GetRun`; any error is
rendered as HTTP 500), reject with 400 when `run.FinishedAt` is set, then
`AddTest` (error rendered as 500) and reply 202.  The asynchronous alert
dispatch for a failed test is fire-and-forget and touches neither the store
state nor the response. -/
def submitTest (s : PGState) (t : TestRow) : PGState × SubmitResp :=
  match getRun s t.runId with
  | .error _ => (s, .internalError)
  | .ok (run, _) =>
    if run.finishedAt ≠ 0 then (s, .badRequest)
    else
      match addTest s t with
      | .error _ => (s, .internalError)
      | .ok s' => (s', .accepted)

/-- Outcome of the `claimRun` handler: HTTP 200 with the claimed run, or
HTTP 404. -/
inductive ClaimResp where
  | claimed (r : RunRow)
  | noRun
  deriving DecidableEq, Repr

/-- The scan loop of `APIHandler.claimRun` over the previously fetched list
of pending runs: skip runs that are already started, skip blacklisted
packages, and on the first whitelisted run call
`StartRun(run.ID, workerIdentity)` and reply 200 with the run.  Faithful to
the source, the result of `StartRun` is discarded: the run is returned
whether or not `StartRun` succeeded.  The store state is taken separately
from the runs list because `ListPendingRuns` and `StartRun` execute as two
independent transactions: the state may have changed in between. -/
def claimScan (s : PGState) (now : Nat) (worker : String)
    (supported unsupported : List String) : List RunRow → PGState × ClaimResp
  | [] => (s, .noRun)
  | run :: rest =>
    if run.startedAt ≠ 0 then claimScan s now worker supported unsupported rest
    else if run.pkg ∈ unsupported then claimScan s now worker supported unsupported rest
    else if run.pkg ∈ supported then
      (match startRun s now run.id worker with
       | .ok s' => s'
       | .error _ => s,
       .claimed run)
    else claimScan s now worker supported unsupported rest

/-- `APIHandler.claimRun`: an empty whitelist means the full configured
package set; then scan the pending runs (oldest `enqueued_at` first). -/
def claimRun (s : PGState) (now : Nat) (worker : String)
    (whitelist blacklist configured : List String) : PGState × ClaimResp :=
  let packages := if whitelist.isEmpty then configured else whitelist
  claimScan s now worker packages blacklist (listPendingRuns s)

/-- The first run of the list that is not started and passes the
blacklist-dominates-whitelist filter (specification-side definition used to
characterise the scan loop). -/
def firstClaimable (supported unsupported : List String) (runs : List RunRow) :
    Option RunRow :=
  runs.find? (fun run =>
    decide (run.startedAt = 0 ∧ ¬ run.pkg ∈ unsupported ∧ run.pkg ∈ supported))

/-!
## Scheduler (`scheduler.Scheduler`)
-/

/-- The fields of `tester.Package` consulted by the scheduler claims:
`RunDelay` is the per-package minimum delay between scheduler-created runs
(0 when unset). -/
structure SchedPackage where
  name : String
  runDelay : Nat := 0
  deriving DecidableEq, Repr

/-- Scheduler-local state: the in-process `lastScheduledAt` map and the
scheduler-wide `runDelay` option (default 5m). -/
structure SchedState where
  lastScheduledAt : List (String × Nat)
  runDelay : Nat
  deriving DecidableEq, Repr

/-- `last, ran := s.lastScheduledAt[pkg.Name]`. -/
def lookupLast (st : SchedState) (name : String) : Option Nat :=
  (st.lastScheduledAt.find? (fun kv => kv.1 = name)).map (fun kv => kv.2)

/-- `s.lastScheduledAt[pkg.Name] = now`. -/
def setLast (name : String) (now : Nat) : List (String × Nat) → List (String × Nat)
  | [] => [(name, now)]
  | kv :: rest =>
    if kv.1 = name then (kv.1, now) :: rest else kv :: setLast name now rest

/-- The loop guard `if ran && time.Now().Sub(last) < s.runDelay { continue }`
negated: proceed to enqueue when the package was never scheduled or the
scheduler-wide delay has elapsed.  The subtraction is on `Int` because Go's
`time.Time.Sub` is signed. -/
def delayElapsed (st : SchedState) (now : Nat) (name : String) : Bool :=
  match lookupLast st name with
  | some last => !((now : Int) - (last : Int) < (st.runDelay : Int))
  | none => true

/-- `Scheduler.scheduleRuns` (sub-pass 1), iterating the shuffled package
list: packages with a pending run are skipped; otherwise, when
`delayElapsed`, a fresh Run is enqueued (`EnqueueRun` with a new UUID; the
returned list collects the package names for which this happened) and
`lastScheduledAt[pkg.Name]` is set to `now`.  The per-package `RunDelay`
field is never consulted by this code. -/
def scheduleRuns (st : SchedState) (now : Nat) (pendingPkgs : List String) :
    List SchedPackage → SchedState × List String
  | [] => (st, [])
  | pkg :: rest =>
    if pkg.name ∈ pendingPkgs then scheduleRuns st now pendingPkgs rest
    else if delayElapsed st now pkg.name then
      let st' : SchedState :=
        { st with lastScheduledAt := setLast pkg.name now st.lastScheduledAt }
      let res := scheduleRuns st' now pendingPkgs rest
      (res.1, pkg.name :: res.2)
    else scheduleRuns st now pendingPkgs rest

/-- The spec's "effective run delay for P": the per-package override when
set, else the scheduler-wide default (specification-side definition, used to
compare the spec's claim with the source's behaviour). -/
def effectiveRunDelay (st : SchedState) (p : SchedPackage) : Nat :=
  if p.runDelay ≠ 0 then p.runDelay else st.runDelay

/-- 24 hours in nanoseconds. -/
def hours24 : Nat := 24 * 60 * 60 * 1000000000

/-- Modelled from the spec: scheduler sub-pass 3 ("garbage-collect
unprocessable runs") is not present in the scheduler revisions under the
sources (only `DeleteRun`'s interface declaration and its store
implementations are).  Per the spec, for every pending run that has never
been started and whose `now − enqueued_at` exceeds 24h, `DeleteRun` is
called.  This is the sweep over the fetched pending-runs list. -/
def gcSweep (now : Nat) (acc : PGState) : List RunRow → PGState
  | [] => acc
  | r :: rest =>
    if r.startedAt = 0 ∧ hours24 < now - r.enqueuedAt then
      gcSweep now (deleteRun acc r.id) rest
    else gcSweep now acc rest

/-- Modelled from the spec: the garbage-collection sub-pass of a scheduler
tick, applied to the live pending-runs list. -/
def runGC (s : PGState) (now : Nat) : PGState :=
  gcSweep now s (listPendingRuns s)

/-!
## Claim theorems
-/

/-- C10 counterexample: on a summary with no tests at all the total (the
divisor) is zero, and `PercentPassedTests` evaluates to `0.0 / 0.0 = NaN`,
not to `0` as the claim states. -/
theorem percentPassedTests_zero_total_cx :
    RunSummary.percentPassedTests { time := 0, duration := 0 } ≠ GoFloat.val 0 := by
  decide

/-- C10 (amended): each percentage accessor of `RunSummary` and
`PackageSummary` divides unconditionally, so a zero total yields the IEEE
`0.0 / 0.0 = NaN` — never `0`. -/
theorem percent_accessors_nan_on_zero_total :
    (∀ s : RunSummary, s.numTotalTests = 0 →
      s.percentPassedTests = GoFloat.nan ∧ s.percentFailedTests = GoFloat.nan ∧
        s.percentSkippedTests = GoFloat.nan) ∧
    (∀ p : PackageSummary, p.numTotalTests = 0 →
      p.percentPassedTests = GoFloat.nan ∧ p.percentFailedTests = GoFloat.nan ∧
        p.percentSkippedTests = GoFloat.nan) := by
  constructor
  · intro s h
    have h' := h
    unfold RunSummary.numTotalTests at h'
    have hp : s.numPassedTests = 0 := by omega
    have hf : s.numFailedTests = 0 := by omega
    have hs : s.numSkippedTests = 0 := by omega
    refine ⟨?_, ?_, ?_⟩ <;>
      simp [RunSummary.percentPassedTests, RunSummary.percentFailedTests,
        RunSummary.percentSkippedTests, goDiv, h, hp, hf, hs]
  · intro p h
    have h' := h
    unfold PackageSummary.numTotalTests at h'
    have hp : p.numPassedTests = 0 := by omega
    have hf : p.numFailedTests = 0 := by omega
    have hs : p.numSkippedTests = 0 := by omega
    refine ⟨?_, ?_, ?_⟩ <;>
      simp [PackageSummary.percentPassedTests, PackageSummary.percentFailedTests,
        PackageSummary.percentSkippedTests, goDiv, h, hp, hf, hs]

/-- Witness for the amended C10 theorem at concrete empty summaries. -/
theorem percent_accessors_nan_on_zero_total_witness :
    RunSummary.percentPassedTests { time := 0, duration := 0 } = GoFloat.nan ∧
    PackageSummary.percentPassedTests { pkg := "p" } = GoFloat.nan :=
  ⟨(percent_accessors_nan_on_zero_total.1 { time := 0, duration := 0 } (by decide)).1,
   (percent_accessors_nan_on_zero_total.2 { pkg := "p" } (by decide)).1⟩

/-- C2: `ResetRun` on a run that is already finished signals `NotFound`
(the guarded `UPDATE` affects zero rows, so the table is untouched); on a
run that is started and not finished it succeeds and clears `started_at`,
`finished_at`, `error` and `meta`, returning the run to the enqueued
state. -/
theorem resetRun_finished_guard (s : PGState) (id : Nat) :
    ((∃ r ∈ s.runs, r.id = id) → (∀ r ∈ s.runs, r.id = id → r.finishedAt ≠ 0) →
      resetRun s id = .error .notFound) ∧
    ((∃ r ∈ s.runs, r.id = id ∧ r.startedAt ≠ 0 ∧ r.finishedAt = 0) →
      resetRun s id =
        .ok { s with runs := s.runs.map (fun r =>
          if r.id = id ∧ r.finishedAt = 0 then
            { r with startedAt := 0, finishedAt := 0, error := none, meta := {} }
          else r) }) := by
  constructor
  · intro _ hall
    have hz : s.runs.countP (fun r => decide (r.id = id ∧ r.finishedAt = 0)) = 0 := by
      rw [List.countP_eq_zero]
      intro r hr
      simp only [decide_eq_true_eq, not_and]
      exact fun h1 h2 => hall r hr h1 h2
    simp only [resetRun, hz, reduceIte]
  · rintro ⟨r, hr, hid, _, hfin⟩
    have hz : s.runs.countP (fun r => decide (r.id = id ∧ r.finishedAt = 0)) ≠ 0 := by
      have hpos : 0 < s.runs.countP (fun r => decide (r.id = id ∧ r.finishedAt = 0)) :=
        List.countP_pos_iff.mpr ⟨r, hr, by simp [hid, hfin]⟩
      omega
    simp only [resetRun, hz, reduceIte]

/-- Witness for C2 at concrete runs: a finished run is refused with
`NotFound`; a started, unfinished run is cleared back to enqueued. -/
theorem resetRun_finished_guard_witness :
    resetRun ⟨[⟨1, "p", [], 0, 5, 9, none, {}⟩], []⟩ 1 = .error .notFound ∧
    resetRun ⟨[⟨2, "p", [], 0, 5, 0, none, ⟨"w"⟩⟩], []⟩ 2 =
      .ok ⟨[⟨2, "p", [], 0, 0, 0, none, {}⟩], []⟩ := by
  constructor
  · exact (resetRun_finished_guard ⟨[⟨1, "p", [], 0, 5, 9, none, {}⟩], []⟩ 1).1
      ⟨⟨1, "p", [], 0, 5, 9, none, {}⟩, by simp, rfl⟩
      (by intro r hr h; simp at hr; simp [hr])
  · have h := (resetRun_finished_guard ⟨[⟨2, "p", [], 0, 5, 0, none, ⟨"w"⟩⟩], []⟩ 2).2
      ⟨⟨2, "p", [], 0, 5, 0, none, ⟨"w"⟩⟩, by simp, rfl, by simp, rfl⟩
    exact h

/-- C4 counterexample: `StartRun` on a run that is already finished (so no
enqueued run with this id exists) does not fail with `NotFound`; the
unguarded `UPDATE` succeeds, overwriting `started_at` and stamping the new
worker into `meta.runner`. -/
theorem startRun_finished_run_cx :
    startRun ⟨[⟨1, "p", [], 0, 5, 9, none, ⟨"w1"⟩⟩], []⟩ 20 1 "w2" =
      .ok ⟨[⟨1, "p", [], 0, 20, 9, none, ⟨"w2"⟩⟩], []⟩ ∧
    startRun ⟨[⟨1, "p", [], 0, 5, 9, none, ⟨"w1"⟩⟩], []⟩ 20 1 "w2" ≠
      .error DBErr.notFound :=
  ⟨rfl, fun h => Except.noConfusion h⟩

/-- C4 (amended): `StartRun(id, runner)` fails with `NotFound` exactly when
no run row with this id exists; when a row exists — whatever its state — it
succeeds, setting `started_at := now` and `meta.runner := runner` on the
row (an already-started or finished run is overwritten rather than
refused). -/
theorem startRun_behaviour (s : PGState) (now id : Nat) (runner : String) :
    (findRun s id = none → startRun s now id runner = .error .notFound) ∧
    (∀ r, findRun s id = some r →
      startRun s now id runner =
        .ok { s with runs := s.runs.map (fun r' =>
          if r'.id = id then
            { r' with startedAt := now, meta := { r.meta with runner := runner } }
          else r') }) := by
  constructor
  · intro h
    simp [startRun, h]
  · intro r h
    simp [startRun, h]

/-- Witness for the amended C4 theorem: absent id yields `NotFound`; an
already-started run is restarted and restamped. -/
theorem startRun_behaviour_witness :
    startRun ⟨[], []⟩ 20 1 "w2" = .error .notFound ∧
    startRun ⟨[⟨1, "p", [], 0, 5, 0, none, ⟨"w1"⟩⟩], []⟩ 20 1 "w2" =
      .ok ⟨[⟨1, "p", [], 0, 20, 0, none, ⟨"w2"⟩⟩], []⟩ := by
  constructor
  · exact (startRun_behaviour ⟨[], []⟩ 20 1 "w2").1 rfl
  · exact (startRun_behaviour ⟨[⟨1, "p", [], 0, 5, 0, none, ⟨"w1"⟩⟩], []⟩ 20 1 "w2").2
      ⟨1, "p", [], 0, 5, 0, none, ⟨"w1"⟩⟩ rfl

/-- C3 counterexample: the referenced run exists and is not finished, yet
the handler replies 500, not 202 — the submitted test reuses an id already
present in the `tests` table, so the `INSERT` is rejected by the primary
key and no row is written. -/
theorem submitTest_duplicate_id_cx :
    (submitTest
      ⟨[⟨1, "p", [], 0, 5, 0, none, {}⟩],
       [⟨7, "p", 1, T.mk ⟨"t", 0, 0, "passed"⟩ [], []⟩]⟩
      ⟨7, "p", 1, T.mk ⟨"t2", 0, 0, "passed"⟩ [], []⟩).2 = SubmitResp.internalError := by
  rfl

/-- C3 (amended): when the referenced run exists, `submitTest` replies 400
and writes nothing if the run is finished; if the run is not finished and
the submitted test id is not already present, the test row is appended and
the handler replies 202 (a duplicate id is instead rejected by the unique
key and surfaces as 500). -/
theorem submitTest_finished_guard (s : PGState) (t : TestRow) (run : RunRow)
    (tests : List TestRow) (h : getRun s t.runId = .ok (run, tests)) :
    (run.finishedAt ≠ 0 → submitTest s t = (s, .badRequest)) ∧
    (run.finishedAt = 0 → (∀ t' ∈ s.tests, t'.id ≠ t.id) →
      submitTest s t = ({ s with tests := s.tests ++ [t] }, .accepted)) := by
  constructor
  · intro hfin
    simp [submitTest, h, hfin]
  · intro hfin hfresh
    have hdup : s.tests.any (fun t' => t'.id = t.id) = false := by
      rw [List.any_eq_false]
      intro t' ht'
      simpa using hfresh t' ht'
    simp [submitTest, h, hfin, addTest, hdup]

/-- Witness for the amended C3 theorem: a run finished by `failRun` rejects
a subsequent submission with 400 and creates no row; a fresh submission
against an unfinished run is accepted with 202. -/
theorem submitTest_finished_guard_witness :
    submitTest (failRun ⟨[⟨1, "p", [], 0, 5, 0, none, {}⟩], []⟩ 9 1 "boom")
      ⟨7, "p", 1, T.mk ⟨"t", 0, 0, "passed"⟩ [], []⟩ =
      (failRun ⟨[⟨1, "p", [], 0, 5, 0, none, {}⟩], []⟩ 9 1 "boom", .badRequest) ∧
    submitTest ⟨[⟨1, "p", [], 0, 5, 0, none, {}⟩], []⟩
      ⟨7, "p", 1, T.mk ⟨"t", 0, 0, "passed"⟩ [], []⟩ =
      (⟨[⟨1, "p", [], 0, 5, 0, none, {}⟩],
        [⟨7, "p", 1, T.mk ⟨"t", 0, 0, "passed"⟩ [], []⟩]⟩, .accepted) := by
  constructor
  · exact (submitTest_finished_guard
      (failRun ⟨[⟨1, "p", [], 0, 5, 0, none, {}⟩], []⟩ 9 1 "boom")
      ⟨7, "p", 1, T.mk ⟨"t", 0, 0, "passed"⟩ [], []⟩
      ⟨1, "p", [], 0, 5, 9, some "boom", {}⟩
      (listTestsForRun (failRun ⟨[⟨1, "p", [], 0, 5, 0, none, {}⟩], []⟩ 9 1 "boom") 1)
      rfl).1 (by simp)
  · exact (submitTest_finished_guard
      ⟨[⟨1, "p", [], 0, 5, 0, none, {}⟩], []⟩
      ⟨7, "p", 1, T.mk ⟨"t", 0, 0, "passed"⟩ [], []⟩
      ⟨1, "p", [], 0, 5, 0, none, {}⟩
      (listTestsForRun ⟨[⟨1, "p", [], 0, 5, 0, none, {}⟩], []⟩ 1)
      rfl).2 rfl (by simp)

/-- C6 failing input evaluated: a bucket whose only runs are error runs has
an empty `RunIDs`, so the uniquify pass is skipped for the whole package
summary (`if len(packageSummary.RunIDs) == 0 { continue }`) and
`ErrorRunIDs` keeps the duplicate introduced by the run-to-test join: run 1
carries an error and two tests, and its id appears twice. -/
theorem summary_error_dedup_skipped :
    listRunSummariesInRange
      ⟨[⟨1, "p", [], 0, 1, 9, some "boom", {}⟩],
       [⟨2, "p", 1, T.mk ⟨"t", 0, 0, "failed"⟩ [], []⟩,
        ⟨3, "p", 1, T.mk ⟨"t", 0, 0, "failed"⟩ [], []⟩]⟩
      0 100 60 =
    .ok [⟨0, 60, [("p", ⟨"p", [], [1, 1], [], [], []⟩)]⟩, ⟨60, 60, []⟩] := by
  rfl

/-- C1 counterexample: between the `ListPendingRuns` transaction and the
`StartRun` transaction the run was deleted, so the `StartRun` attempt fails
with `NotFound` — yet the handler replies 200 with that run, because the
source discards `StartRun`'s result instead of continuing the scan.  This
refutes "no single call ever returns a run whose StartRun attempt
failed". -/
theorem claimRun_returns_despite_startRun_failure_cx :
    startRun (deleteRun ⟨[⟨1, "p", [], 0, 0, 0, none, {}⟩], []⟩ 1) 5 1 "w" =
      .error .notFound ∧
    (claimScan (deleteRun ⟨[⟨1, "p", [], 0, 0, 0, none, {}⟩], []⟩ 1) 5 "w" ["p"] []
      (listPendingRuns ⟨[⟨1, "p", [], 0, 0, 0, none, {}⟩], []⟩)).2 =
      ClaimResp.claimed ⟨1, "p", [], 0, 0, 0, none, {}⟩ :=
  ⟨rfl, rfl⟩

/-- C1 (amended): the scan replies 200 with the first not-started,
filter-passing run of the fetched list — independently of whether its
`StartRun` succeeded — and 404 exactly when no run passes. -/
theorem claimScan_first_match (s : PGState) (now : Nat) (worker : String)
    (supported unsupported : List String) (runs : List RunRow) :
    (claimScan s now worker supported unsupported runs).2 =
      match firstClaimable supported unsupported runs with
      | some r => ClaimResp.claimed r
      | none => ClaimResp.noRun := by
  induction runs with
  | nil => rfl
  | cons run rest ih =>
    by_cases hst : run.startedAt = 0
    · by_cases hub : run.pkg ∈ unsupported
      · have hp : ¬ (run.startedAt = 0 ∧ ¬ run.pkg ∈ unsupported ∧ run.pkg ∈ supported) := by
          simp [hub]
        simp [claimScan, firstClaimable, hst, hub, hp] at ih ⊢
        exact ih
      · by_cases hsup : run.pkg ∈ supported
        · have hp : run.startedAt = 0 ∧ ¬ run.pkg ∈ unsupported ∧ run.pkg ∈ supported :=
            ⟨hst, hub, hsup⟩
          simp [claimScan, firstClaimable, hst, hub, hsup, hp]
        · have hp : ¬ (run.startedAt = 0 ∧ ¬ run.pkg ∈ unsupported ∧ run.pkg ∈ supported) := by
            simp [hsup]
          simp [claimScan, firstClaimable, hst, hub, hsup, hp] at ih ⊢
          exact ih
    · have hp : ¬ (run.startedAt = 0 ∧ ¬ run.pkg ∈ unsupported ∧ run.pkg ∈ supported) := by
        simp [hst]
      simp [claimScan, firstClaimable, hst, hp] at ih ⊢
      exact ih

/-- Membership is preserved by sorted insertion. -/
theorem mem_insertSorted {key : α → Nat} {x y : α} {l : List α} :
    y ∈ insertSorted key x l ↔ y = x ∨ y ∈ l := by
  induction l with
  | nil => simp [insertSorted]
  | cons z zs ih =>
    by_cases h : key x < key z
    · simp [insertSorted, h]
    · simp [insertSorted, h, ih]
      tauto

/-- Membership is preserved by the key sort. -/
theorem mem_sortByKey {key : α → Nat} {x : α} {l : List α} :
    x ∈ sortByKey key l ↔ x ∈ l := by
  induction l with
  | nil => simp [sortByKey]
  | cons z zs ih =>
    simp [sortByKey, mem_insertSorted, ih]

/-- The GC sweep only ever removes rows. -/
theorem gcSweep_runs_subset (now : Nat) (l : List RunRow) (acc : PGState) :
    ∀ r ∈ (gcSweep now acc l).runs, r ∈ acc.runs := by
  induction l generalizing acc with
  | nil => intro r hr; exact hr
  | cons q rest ih =>
    intro r hr
    by_cases hq : q.startedAt = 0 ∧ hours24 < now - q.enqueuedAt
    · have := ih (deleteRun acc q.id) r (by simpa [gcSweep, hq] using hr)
      exact List.mem_of_mem_filter this
    · exact ih acc r (by simpa [gcSweep, hq] using hr)

/-- Once some row of the sweep list matches the GC condition for id `x`, no
row with id `x` survives the sweep. -/
theorem gcSweep_removes_id (now : Nat) (l : List RunRow) (acc : PGState) (x : Nat)
    (hwit : ∃ q ∈ l, q.startedAt = 0 ∧ hours24 < now - q.enqueuedAt ∧ q.id = x) :
    ∀ r ∈ (gcSweep now acc l).runs, r.id ≠ x := by
  induction l generalizing acc with
  | nil => simp at hwit
  | cons q rest ih =>
    rcases hwit with ⟨w, hw, hw1, hw2, hw3⟩
    rcases List.mem_cons.mp hw with hq | hrest
    · subst hq
      intro r hr
      have hcond : w.startedAt = 0 ∧ hours24 < now - w.enqueuedAt := ⟨hw1, hw2⟩
      have hr' : r ∈ (gcSweep now (deleteRun acc w.id) rest).runs := by
        simpa [gcSweep, hcond] using hr
      have hmem := gcSweep_runs_subset now rest (deleteRun acc w.id) r hr'
      have := List.of_mem_filter hmem
      simp only [decide_eq_true_eq] at this
      rw [hw3] at this
      exact this
    · intro r hr
      by_cases hcond : q.startedAt = 0 ∧ hours24 < now - q.enqueuedAt
      · exact ih (deleteRun acc q.id) ⟨w, hrest, hw1, hw2, hw3⟩ r
          (by simpa [gcSweep, hcond] using hr)
      · exact ih acc ⟨w, hrest, hw1, hw2, hw3⟩ r (by simpa [gcSweep, hcond] using hr)

/-- C8: after the garbage-collection sub-pass of a scheduler tick, a pending
run that was never started and was enqueued more than 24 hours ago no longer
exists: `GetRun` on its id yields `NotFound`.  (The other sub-passes of the
tick touch only started runs or insert runs with fresh UUIDs, so they cannot
resurrect the deleted id.) -/
theorem runGC_removes_unprocessable (s : PGState) (now : Nat) (r : RunRow)
    (hmem : r ∈ s.runs) (hpending : r.finishedAt = 0) (hstart : r.startedAt = 0)
    (hold : hours24 < now - r.enqueuedAt) :
    getRun (runGC s now) r.id = .error .notFound := by
  have hr : r ∈ listPendingRuns s :=
    mem_sortByKey.mpr (List.mem_filter.mpr ⟨hmem, by simp [hpending]⟩)
  have hnone : ∀ rr ∈ (gcSweep now s (listPendingRuns s)).runs, rr.id ≠ r.id :=
    gcSweep_removes_id now (listPendingRuns s) s r.id ⟨r, hr, hstart, hold, rfl⟩
  have hfind : findRun (runGC s now) r.id = none := by
    rw [findRun, List.find?_eq_none]
    intro rr hrr
    simp only [decide_eq_true_eq]
    exact hnone rr hrr
  simp [getRun, hfind]

/-- Witness for C8: a run enqueued at time 0, never started, swept at
`24h + 1ns`, is gone. -/
theorem runGC_removes_unprocessable_witness :
    getRun (runGC ⟨[⟨1, "p", [], 0, 0, 0, none, {}⟩], []⟩ 86400000000001) 1 =
      .error .notFound :=
  runGC_removes_unprocessable ⟨[⟨1, "p", [], 0, 0, 0, none, {}⟩], []⟩ 86400000000001
    ⟨1, "p", [], 0, 0, 0, none, {}⟩ (by simp) rfl rfl (by norm_num [hours24])

/-- `setLast` makes the written key read back as `now`. -/
theorem setLast_lookup_self (name : String) (now : Nat) (m : List (String × Nat)) :
    ((setLast name now m).find? (fun kv => kv.1 = name)).map (fun kv => kv.2) =
      some now := by
  induction m with
  | nil => simp [setLast]
  | cons kv rest ih =>
    by_cases h : kv.1 = name
    · simp [setLast, h]
    · simp [setLast, h, ih]

/-- `setLast` leaves every other key unchanged. -/
theorem setLast_lookup_ne (name other : String) (now : Nat) (m : List (String × Nat))
    (h : other ≠ name) :
    ((setLast name now m).find? (fun kv => kv.1 = other)).map (fun kv => kv.2) =
      (m.find? (fun kv => kv.1 = other)).map (fun kv => kv.2) := by
  have hno : ¬ name = other := fun he => h he.symm
  induction m with
  | nil => simp [setLast, hno]
  | cons kv rest ih =>
    by_cases hk : kv.1 = name
    · have hko : ¬ kv.1 = other := by rw [hk]; exact hno
      simp [setLast, hk, hko, hno]
    · by_cases ho : kv.1 = other
      · simp [setLast, hk, ho, h]
      · simp [setLast, hk, ho, ih]

/-- The delay guard reads only the key's last-scheduled entry and the
scheduler-wide delay. -/
theorem delayElapsed_congr (st st' : SchedState) (now : Nat) (name : String)
    (h1 : lookupLast st name = lookupLast st' name) (h2 : st.runDelay = st'.runDelay) :
    delayElapsed st now name = delayElapsed st' now name := by
  unfold delayElapsed
  rw [h1, h2]

/-- Every package name scheduled by sub-pass 1 comes from the input list. -/
theorem scheduleRuns_scheduled_subset (st : SchedState) (now : Nat)
    (pending : List String) (pkgs : List SchedPackage) :
    ∀ q ∈ (scheduleRuns st now pending pkgs).2, q ∈ pkgs.map SchedPackage.name := by
  induction pkgs generalizing st with
  | nil => simp [scheduleRuns]
  | cons pkg rest ih =>
    intro q hq
    by_cases h1 : pkg.name ∈ pending
    · simp only [scheduleRuns, if_pos h1] at hq
      exact List.mem_cons_of_mem _ (ih st q hq)
    · by_cases h2 : delayElapsed st now pkg.name = true
      · simp only [scheduleRuns, if_neg h1, if_pos h2] at hq
        rcases List.mem_cons.mp hq with hq | hq
        · simp [hq]
        · exact List.mem_cons_of_mem _ (ih _ q hq)
      · simp only [scheduleRuns, if_neg h1, if_neg h2] at hq
        exact List.mem_cons_of_mem _ (ih st q hq)

/-- A package name not in the input list keeps its last-scheduled entry. -/
theorem scheduleRuns_lookup_preserved (st : SchedState) (now : Nat)
    (pending : List String) (pkgs : List SchedPackage) (name : String)
    (h : ¬ name ∈ pkgs.map SchedPackage.name) :
    lookupLast (scheduleRuns st now pending pkgs).1 name = lookupLast st name := by
  induction pkgs generalizing st with
  | nil => rfl
  | cons pkg rest ih =>
    simp only [List.map_cons, List.mem_cons, not_or] at h
    obtain ⟨hne, hrest⟩ := h
    by_cases h1 : pkg.name ∈ pending
    · simp only [scheduleRuns, if_pos h1]
      exact ih st hrest
    · by_cases h2 : delayElapsed st now pkg.name = true
      · simp only [scheduleRuns, if_neg h1, if_pos h2]
        rw [ih _ hrest]
        exact setLast_lookup_ne pkg.name name now st.lastScheduledAt hne
      · simp only [scheduleRuns, if_neg h1, if_neg h2]
        exact ih st hrest

/-- C7 counterexample: package `P` declares a per-package `RunDelay` of 1ns;
2ns have elapsed since `last_scheduled[P]`, so the claimed rule ("enqueue
exactly when `now − last_scheduled[P] ≥` the effective run delay,
per-package override else default") demands a new run — but the source
consults only the scheduler-wide default (300ns here) and schedules
nothing. -/
theorem scheduleRuns_ignores_package_delay_cx :
    (scheduleRuns ⟨[("P", 8)], 300⟩ 10 [] [⟨"P", 1⟩]).2 = [] ∧
    effectiveRunDelay ⟨[("P", 8)], 300⟩ ⟨"P", 1⟩ ≤ 10 - 8 := by
  constructor
  · rfl
  · decide

/-- C7 (amended): for a duplicate-free shuffled package list, sub-pass 1
enqueues a run for package `p` exactly when `p` has no pending run and
either `p` was never scheduled in-process or `now − last_scheduled[p] ≥`
the scheduler-wide default delay (the per-package `RunDelay` is not
consulted); on enqueue, `last_scheduled[p]` is set to `now`.  In
particular, when `last_scheduled[p] = now` and the delay is positive, no
run is created for `p` in this tick. -/
theorem scheduleRuns_decision (st : SchedState) (now : Nat) (pending : List String)
    (pkgs : List SchedPackage) (hnd : (pkgs.map SchedPackage.name).Nodup) :
    ∀ p ∈ pkgs,
      (p.name ∈ (scheduleRuns st now pending pkgs).2 ↔
        ¬ p.name ∈ pending ∧ delayElapsed st now p.name = true) ∧
      (p.name ∈ (scheduleRuns st now pending pkgs).2 →
        lookupLast (scheduleRuns st now pending pkgs).1 p.name = some now) ∧
      (lookupLast st p.name = some now → 0 < st.runDelay →
        ¬ p.name ∈ (scheduleRuns st now pending pkgs).2) := by
  induction pkgs generalizing st with
  | nil => intro p hp; simp at hp
  | cons pkg rest ih =>
    have hcons := hnd
    rw [List.map_cons, List.nodup_cons] at hcons
    have hpkg_notin : ¬ pkg.name ∈ rest.map SchedPackage.name := hcons.1
    have hnd' : (rest.map SchedPackage.name).Nodup := hcons.2
    intro p hp
    rcases List.mem_cons.mp hp with rfl | hp'
    · by_cases h1 : p.name ∈ pending
      · simp only [scheduleRuns, if_pos h1]
        have hnm : ¬ p.name ∈ (scheduleRuns st now pending rest).2 := fun hmem =>
          hpkg_notin (scheduleRuns_scheduled_subset st now pending rest p.name hmem)
        exact ⟨⟨fun hmem => absurd hmem hnm, fun hc => absurd h1 hc.1⟩,
          fun hmem => absurd hmem hnm, fun _ _ => hnm⟩
      · by_cases h2 : delayElapsed st now p.name = true
        · simp only [scheduleRuns, if_neg h1, if_pos h2]
          refine ⟨⟨fun _ => ⟨h1, h2⟩, fun _ => List.mem_cons_self _ _⟩, fun _ => ?_, ?_⟩
          · rw [scheduleRuns_lookup_preserved _ now pending rest p.name hpkg_notin]
            exact setLast_lookup_self p.name now st.lastScheduledAt
          · intro hlast hpos _
            have h2' : (!((now : Int) - (now : Int) < (st.runDelay : Int))) = true := by
              simpa [delayElapsed, hlast] using h2
            simp only [sub_self, Bool.not_eq_true'] at h2'
            have : (0 : Int) < (st.runDelay : Int) := by exact_mod_cast hpos
            simp [this] at h2'
        · simp only [scheduleRuns, if_neg h1, if_neg h2]
          have hnm : ¬ p.name ∈ (scheduleRuns st now pending rest).2 := fun hmem =>
            hpkg_notin (scheduleRuns_scheduled_subset st now pending rest p.name hmem)
          exact ⟨⟨fun hmem => absurd hmem hnm, fun hc => absurd hc.2 h2⟩,
            fun hmem => absurd hmem hnm, fun _ _ => hnm⟩
    · have hpname_ne : p.name ≠ pkg.name := by
        intro he
        exact hpkg_notin (he ▸ List.mem_map_of_mem SchedPackage.name hp')
      by_cases h1 : pkg.name ∈ pending
      · simp only [scheduleRuns, if_pos h1]
        exact ih st hnd' p hp'
      · by_cases h2 : delayElapsed st now pkg.name = true
        · simp only [scheduleRuns, if_pos h2, if_neg h1]
          have hlook :
              lookupLast
                { st with lastScheduledAt := setLast pkg.name now st.lastScheduledAt }
                p.name = lookupLast st p.name :=
            setLast_lookup_ne pkg.name p.name now st.lastScheduledAt hpname_ne
          have hde :
              delayElapsed
                { st with lastScheduledAt := setLast pkg.name now st.lastScheduledAt }
                now p.name = delayElapsed st now p.name :=
            delayElapsed_congr _ _ now p.name hlook rfl
          have hih := ih { st with lastScheduledAt := setLast pkg.name now st.lastScheduledAt }
            hnd' p hp'
          refine ⟨?_, ?_, ?_⟩
          · rw [List.mem_cons]
            constructor
            · rintro (he | hmem)
              · exact absurd he hpname_ne
              · have := hih.1.mp hmem
                rw [hde] at this
                exact this
            · intro hc
              refine Or.inr (hih.1.mpr ?_)
              rw [hde]
              exact hc
          · rintro hmem
            rcases List.mem_cons.mp hmem with he | hmem'
            · exact absurd he hpname_ne
            · exact hih.2.1 hmem'
          · intro hlast hpos hmem
            rcases List.mem_cons.mp hmem with he | hmem'
            · exact absurd he hpname_ne
            · exact hih.2.2 (hlook.trans hlast) hpos hmem'
        · simp only [scheduleRuns, if_neg h1, if_neg h2]
          exact ih st hnd' p hp'

/-- Witness for the amended C7 theorem: package `A` was last scheduled at
the current instant with a positive delay, so no run is created for it;
package `B` was never scheduled and is enqueued, and its last-scheduled
entry is stamped to `now`. -/
theorem scheduleRuns_decision_witness :
    ¬ "A" ∈ (scheduleRuns ⟨[("A", 10)], 5⟩ 10 [] [⟨"A", 0⟩, ⟨"B", 0⟩]).2 ∧
    "B" ∈ (scheduleRuns ⟨[("A", 10)], 5⟩ 10 [] [⟨"A", 0⟩, ⟨"B", 0⟩]).2 := by
  have h := scheduleRuns_decision ⟨[("A", 10)], 5⟩ 10 [] [⟨"A", 0⟩, ⟨"B", 0⟩] (by decide)
  constructor
  · exact (h ⟨"A", 0⟩ (by simp)).2.2 (by decide) (by decide)
  · exact (h ⟨"B", 0⟩ (by simp)).1.mpr ⟨by decide, by decide⟩

/-- Adding a row to a bucket touches only its package-summary map. -/
theorem addRowToBucket_time (row : JoinRow) (sum : RunSummary) :
    (addRowToBucket row sum).time = sum.time := rfl

/-- Adding a row to a bucket touches only its package-summary map. -/
theorem addRowToBucket_duration (row : JoinRow) (sum : RunSummary) :
    (addRowToBucket row sum).duration = sum.duration := rfl

/-- The uniquify pass touches only the package-summary map. -/
theorem uniquifySummary_time (sum : RunSummary) :
    (uniquifySummary sum).time = sum.time := rfl

/-- The uniquify pass touches only the package-summary map. -/
theorem uniquifySummary_duration (sum : RunSummary) :
    (uniquifySummary sum).duration = sum.duration := rfl

/-- The uniquify pass keeps an empty bucket empty. -/
theorem uniquifySummary_empty (sum : RunSummary) (h : sum.packageSummary = []) :
    (uniquifySummary sum).packageSummary = [] := by
  simp [uniquifySummary, h]

/-- A successful scan preserves the number of buckets. -/
theorem scanRows_ok_length (b w : Nat) (rows : List JoinRow)
    (sums out : List RunSummary) (h : scanRows b w sums rows = .ok out) :
    out.length = sums.length := by
  induction rows generalizing sums with
  | nil =>
    simp only [scanRows, Except.ok.injEq] at h
    rw [h]
  | cons row rest ih =>
    rw [scanRows] at h
    split at h
    · have := ih _ h
      rwa [List.length_set] at this
    · simp at h

/-- A successful scan preserves every bucket's start time and width. -/
theorem scanRows_preserves_headers (b w : Nat) (rows : List JoinRow)
    (sums out : List RunSummary) (h : scanRows b w sums rows = .ok out)
    (i : Nat) (h1 : i < out.length) (h2 : i < sums.length) :
    out[i].time = sums[i].time ∧ out[i].duration = sums[i].duration := by
  induction rows generalizing sums with
  | nil =>
    simp only [scanRows, Except.ok.injEq] at h
    subst h
    exact ⟨rfl, rfl⟩
  | cons row rest ih =>
    rw [scanRows] at h
    split at h
    case isTrue hlt =>
      have h2' : i < (sums.set ((row.startedAt - b) / w)
          (addRowToBucket row (sums.get ⟨(row.startedAt - b) / w, hlt⟩))).length := by
        simpa using h2
      have hstep := ih _ h h2'
      rw [List.getElem_set h2'] at hstep
      by_cases he : (row.startedAt - b) / w = i
      · rw [if_pos he] at hstep
        rcases hstep with ⟨ht, hd⟩
        rw [ht, hd, addRowToBucket_time, addRowToBucket_duration]
        subst he
        exact ⟨rfl, rfl⟩
      · rw [if_neg he] at hstep
        exact hstep
    · simp at h

/-- A bucket into which no row falls comes out of a successful scan
unchanged. -/
theorem scanRows_untouched (b w : Nat) (rows : List JoinRow)
    (sums out : List RunSummary) (h : scanRows b w sums rows = .ok out)
    (i : Nat) (h1 : i < out.length) (h2 : i < sums.length)
    (hno : ∀ row ∈ rows, (row.startedAt - b) / w ≠ i) :
    out[i] = sums[i] := by
  induction rows generalizing sums with
  | nil =>
    simp only [scanRows, Except.ok.injEq] at h
    subst h
    rfl
  | cons row rest ih =>
    rw [scanRows] at h
    split at h
    case isTrue hlt =>
      have h2' : i < (sums.set ((row.startedAt - b) / w)
          (addRowToBucket row (sums.get ⟨(row.startedAt - b) / w, hlt⟩))).length := by
        simpa using h2
      have hstep := ih _ h h2' (fun r hr => hno r (List.mem_cons_of_mem row hr))
      rw [List.getElem_set h2', if_neg (hno row (List.mem_cons_self row rest))] at hstep
      exact hstep
    · simp at h

/-- The initial bucket list has exactly the requested number of buckets. -/
theorem initSummaries_length (b w n : Nat) : (initSummaries b w n).length = n := by
  simp [initSummaries]

/-- The `i`-th initial bucket starts at `b + i*w`, has width `w` and an
empty package-summary map. -/
theorem initSummaries_getElem (b w n i : Nat) (h : i < (initSummaries b w n).length) :
    (initSummaries b w n)[i] =
      { time := b + i * w, duration := w, packageSummary := [] } := by
  simp [initSummaries]

/-- C5: a successful `ListRunSummariesInRange(b, e, w)` returns exactly
`⌈(e − b)/w⌉` buckets; the `i`-th has `Time = b + i·w` and
`Duration = w`, and any bucket into which no queried row falls is present
with an empty package-summary map. -/
theorem listRunSummariesInRange_dense_buckets (s : PGState) (b e w : Nat)
    (out : List RunSummary) (hw : 0 < w) (hbe : b ≤ e)
    (h : listRunSummariesInRange s b e w = .ok out) :
    out.length = natCeilDiv (e - b) w ∧
    (∀ i, (hi : i < out.length) →
      out[i].time = b + i * w ∧ out[i].duration = w) ∧
    (∀ i, (hi : i < out.length) →
      (∀ row ∈ joinedRows s b e, (row.startedAt - b) / w ≠ i) →
      out[i].packageSummary = []) := by
  unfold listRunSummariesInRange at h
  split at h
  next err heq => exact absurd h (by simp)
  next mid heq =>
    injection h with h
    subst h
    have hmidlen : mid.length = natCeilDiv (e - b) w := by
      rw [scanRows_ok_length b w (joinedRows s b e) _ mid heq, initSummaries_length]
    refine ⟨by simpa using hmidlen, ?_, ?_⟩
    · intro i hi
      have hi' : i < mid.length := by simpa using hi
      have hi0 : i < (initSummaries b w (natCeilDiv (e - b) w)).length := by
        rw [initSummaries_length]
        omega
      have hh := scanRows_preserves_headers b w (joinedRows s b e) _ mid heq i hi' hi0
      rw [initSummaries_getElem b w _ i hi0] at hh
      constructor
      · rw [List.getElem_map, uniquifySummary_time, hh.1]
      · rw [List.getElem_map, uniquifySummary_duration, hh.2]
    · intro i hi hno
      have hi' : i < mid.length := by simpa using hi
      have hi0 : i < (initSummaries b w (natCeilDiv (e - b) w)).length := by
        rw [initSummaries_length]
        omega
      have hu := scanRows_untouched b w (joinedRows s b e) _ mid heq i hi' hi0 hno
      rw [List.getElem_map]
      apply uniquifySummary_empty
      rw [hu, initSummaries_getElem b w _ i hi0]

/-- Witness for C5: a range of 100ns with 60ns windows over an empty store
yields exactly `⌈100/60⌉ = 2` buckets. -/
theorem listRunSummariesInRange_dense_buckets_witness :
    ([⟨0, 60, []⟩, ⟨60, 60, []⟩] : List RunSummary).length = natCeilDiv (100 - 0) 60 :=
  (listRunSummariesInRange_dense_buckets ⟨[], []⟩ 0 100 60 [⟨0, 60, []⟩, ⟨60, 60, []⟩]
    (by decide) (by decide) rfl).1

/-- C9 counterexample: the query admits `started_at = e` (both bounds
inclusive); when `e − b` is a whole multiple of `w`, that row's bucket index
equals the bucket count and the Go slice access panics — modelled as the
`indexOutOfRange` error.  Here `b = 0`, `e = w = 60`, and a finished run
with `started_at = 60` and one test. -/
theorem summary_boundary_panic_cx :
    listRunSummariesInRange
      ⟨[⟨1, "p", [], 0, 60, 60, none, {}⟩],
       [⟨2, "p", 1, T.mk ⟨"t", 0, 0, "passed"⟩ [], []⟩]⟩ 0 60 60 =
      .error .indexOutOfRange := by
  rfl

/-- Every row produced by the summary query has `b ≤ started_at ≤ e`. -/
theorem joinedRows_startedAt_bounds (s : PGState) (b e : Nat) :
    ∀ row ∈ joinedRows s b e, b ≤ row.startedAt ∧ row.startedAt ≤ e := by
  intro row hrow
  rw [joinedRows, mem_sortByKey, List.mem_flatMap] at hrow
  obtain ⟨t, _, hrow⟩ := hrow
  rw [List.mem_filterMap] at hrow
  obtain ⟨r, _, heq⟩ := hrow
  by_cases hc : r.id = t.runId ∧ r.startedAt ≠ 0 ∧ b ≤ r.startedAt ∧ r.startedAt ≤ e
      ∧ r.finishedAt ≠ 0
  · rw [if_pos hc] at heq
    injection heq with heq
    subst heq
    exact ⟨hc.2.2.1, hc.2.2.2.1⟩
  · rw [if_neg hc] at heq
    exact absurd heq (by simp)

/-- A scan over rows whose bucket indices are all in range succeeds. -/
theorem scanRows_ok_of_bounds (b w : Nat) (rows : List JoinRow)
    (sums : List RunSummary)
    (h : ∀ row ∈ rows, (row.startedAt - b) / w < sums.length) :
    ∃ out, scanRows b w sums rows = .ok out := by
  induction rows generalizing sums with
  | nil => exact ⟨sums, rfl⟩
  | cons row rest ih =>
    have hlt := h row (List.mem_cons_self row rest)
    rw [scanRows, dif_pos hlt]
    exact ih _ (fun r hr => by
      rw [List.length_set]
      exact h r (List.mem_cons_of_mem row hr))

/-- The bucket index of an admitted row is within the allocated bucket
count, provided the row does not sit exactly on `e` while `w` divides
`e − b`. -/
theorem bucketIndex_lt_ceil (b e t w : Nat) (hw : 0 < w) (hbt : b ≤ t) (hte : t ≤ e)
    (hsafe : t < e ∨ ¬ w ∣ (e - b)) : (t - b) / w < natCeilDiv (e - b) w := by
  rw [Nat.div_lt_iff_lt_mul hw]
  unfold natCeilDiv
  have h1 : (e - b) + w - 1 < ((e - b) + w - 1) / w * w + w :=
    Nat.lt_div_mul_add hw
  have h2 : ((e - b) + w - 1) / w * w ≤ (e - b) + w - 1 :=
    Nat.div_mul_le_self _ _
  have hdvd : w ∣ ((e - b) + w - 1) / w * w := Dvd.intro_left _ rfl
  generalize hQ : ((e - b) + w - 1) / w * w = Q at h1 h2 hdvd ⊢
  rcases hsafe with hlt | hnd
  · omega
  · have hne : Q ≠ e - b := fun he => hnd (he ▸ hdvd)
    omega

/-- C9 (amended): the bucket access is in bounds — and the operation
returns successfully — whenever every admitted row has `started_at < e`,
or `e − b` is not a whole multiple of `w`; the remaining boundary case
(`started_at = e` with `w ∣ e − b`, including `b = e`) overruns the bucket
array, as the counterexample shows. -/
theorem listRunSummariesInRange_no_panic (s : PGState) (b e w : Nat) (hw : 0 < w)
    (hbe : b ≤ e)
    (hsafe : ∀ row ∈ joinedRows s b e, row.startedAt < e ∨ ¬ w ∣ (e - b)) :
    ∃ out, listRunSummariesInRange s b e w = .ok out := by
  have hidx : ∀ row ∈ joinedRows s b e,
      (row.startedAt - b) / w < (initSummaries b w (natCeilDiv (e - b) w)).length := by
    intro row hrow
    rw [initSummaries_length]
    have hb := joinedRows_startedAt_bounds s b e row hrow
    exact bucketIndex_lt_ceil b e row.startedAt w hw hb.1 hb.2 (hsafe row hrow)
  obtain ⟨mid, hmid⟩ := scanRows_ok_of_bounds b w (joinedRows s b e) _ hidx
  refine ⟨mid.map uniquifySummary, ?_⟩
  unfold listRunSummariesInRange
  rw [hmid]

/-- Witness for the amended C9 theorem: the same store as the
counterexample but with `started_at = 59 < e` succeeds. -/
theorem listRunSummariesInRange_no_panic_witness :
    (listRunSummariesInRange
      ⟨[⟨1, "p", [], 0, 59, 60, none, {}⟩],
       [⟨2, "p", 1, T.mk ⟨"t", 0, 0, "passed"⟩ [], []⟩]⟩ 0 60 60).isOk = true := by
  obtain ⟨out, hout⟩ := listRunSummariesInRange_no_panic
    ⟨[⟨1, "p", [], 0, 59, 60, none, {}⟩],
     [⟨2, "p", 1, T.mk ⟨"t", 0, 0, "passed"⟩ [], []⟩]⟩ 0 60 60
    (by decide) (by decide) (by decide)
  rw [hout]
  rfl
